import Mathlib

/-!
Verification of the mcpmydocs retrieval engine against its specification.

The Go sources are shallowly embedded: pure functions become Lean functions,
the DuckDB-backed store becomes explicit state passing on a `StoreState`,
fallible operations return `Except` / `Option`, Go `int` / `int64` become `Int`,
and Go floating-point scores become `ℚ` (the claims settled here concern
ordering, truncation and control flow, never rounding).

Character classification (Go's `unicode` package) is modelled by decidable
predicates that are faithful to the Go Unicode tables on the Basic Latin
(ASCII) and Latin-1 control ranges, on the Unicode white-space list, and on
the CJK Unified Ideographs block (whose code points are letters in Go: not
space, not punctuation, not symbol, not control).
-/

namespace McpMyDocs

/-- Go `unicode.IsControl` (category Cc): U+0000..U+001F and U+007F..U+009F. -/
def goIsControl (c : Char) : Bool :=
  c.toNat ≤ 0x1f || (0x7f ≤ c.toNat && c.toNat ≤ 0x9f)

/-- Go `unicode.IsSpace` (White_Space property). -/
def goIsSpace (c : Char) : Bool :=
  (0x09 ≤ c.toNat && c.toNat ≤ 0x0d) || c.toNat == 0x20 || c.toNat == 0x85 ||
  c.toNat == 0xa0 || c.toNat == 0x1680 || (0x2000 ≤ c.toNat && c.toNat ≤ 0x200a) ||
  c.toNat == 0x2028 || c.toNat == 0x2029 || c.toNat == 0x202f ||
  c.toNat == 0x205f || c.toNat == 0x3000

/-- Go `unicode.IsPunct` (category P), faithful on the ASCII range. -/
def goIsPunct (c : Char) : Bool :=
  (0x21 ≤ c.toNat && c.toNat ≤ 0x23) || (0x25 ≤ c.toNat && c.toNat ≤ 0x2a) ||
  (0x2c ≤ c.toNat && c.toNat ≤ 0x2f) || c.toNat == 0x3a || c.toNat == 0x3b ||
  c.toNat == 0x3f || c.toNat == 0x40 || (0x5b ≤ c.toNat && c.toNat ≤ 0x5d) ||
  c.toNat == 0x5f || c.toNat == 0x7b || c.toNat == 0x7d

/-- Go `unicode.IsSymbol` (category S), faithful on the ASCII range. -/
def goIsSymbol (c : Char) : Bool :=
  c.toNat == 0x24 || c.toNat == 0x2b || (0x3c ≤ c.toNat && c.toNat ≤ 0x3e) ||
  c.toNat == 0x5e || c.toNat == 0x60 || c.toNat == 0x7c || c.toNat == 0x7e

/-- CJK Unified Ideographs main block, used only to state the claim about
CJK code points; the Go sources never test for CJK. -/
def isCJK (c : Char) : Bool :=
  0x4e00 ≤ c.toNat && c.toNat ≤ 0x9fff

/-- Loop body of `tokenizeText` (internal/embedder/embedder.go): iterates over
the runes of the text carrying the `strings.Builder` contents `cur`; splits at
white space, gives each punctuation rune its own one-rune word, and extends
`cur` with every other rune (symbols, CJK and control runes included). -/
def ttLoop : List Char → List Char → List String
  | [], cur => if cur = [] then [] else [String.mk cur]
  | c :: rest, cur =>
    if goIsSpace c then
      (if cur = [] then [] else [String.mk cur]) ++ ttLoop rest []
    else if goIsPunct c then
      (if cur = [] then [] else [String.mk cur]) ++ String.mk [c] :: ttLoop rest []
    else
      ttLoop rest (cur ++ [c])

/-- `tokenizeText` (internal/embedder/embedder.go): splits text into words,
handling punctuation. -/
def tokenizeText (text : String) : List String :=
  ttLoop text.toList []

/-- Loop body of the reranker's `splitWords`: like `ttLoop` but control runes
are skipped and symbol runes are split off exactly like punctuation. -/
def swLoop : List Char → List Char → List String
  | [], cur => if cur = [] then [] else [String.mk cur]
  | c :: rest, cur =>
    if goIsControl c then
      swLoop rest cur
    else if goIsSpace c then
      (if cur = [] then [] else [String.mk cur]) ++ swLoop rest []
    else if goIsPunct c || goIsSymbol c then
      (if cur = [] then [] else [String.mk cur]) ++ String.mk [c] :: swLoop rest []
    else
      swLoop rest (cur ++ [c])

/-- `splitWords` (internal/reranker/reranker.go): splits text into words,
handling punctuation. -/
def splitWords (text : String) : List String :=
  swLoop text.toList []

/-- A rune that the reranker's splitter accumulates into a word run. -/
def swWordish (c : Char) : Bool :=
  !goIsControl c && !goIsSpace c && !goIsPunct c && !goIsSymbol c

/-- A rune that the embedder's splitter accumulates into a word run. -/
def ttWordish (c : Char) : Bool :=
  !goIsSpace c && !goIsPunct c

/-! ## WordPiece tokenization (shared by embedder and reranker) -/

/-- The vocabulary: surface form to token id, as loaded from tokenizer.json. -/
def Vocab : Type := String → Option Int

/-- The substring `string(wordRunes[start:end])`, with the `##` continuation
marker prepended when `start > 0`, as looked up by `wordPieceTokenize`. -/
def wpKey (runes : List Char) (start e : Nat) : String :=
  let s := String.mk ((runes.drop start).take (e - start))
  if 0 < start then "##" ++ s else s

/-- Inner loop of `wordPieceTokenize`: scans `end` from `e` down to `start+1`
looking for the longest vocabulary match; returns the matched id and the new
`start`. Identical in internal/embedder/embedder.go and
internal/reranker/reranker.go. -/
def findPiece (vocab : Vocab) (runes : List Char) (start : Nat) : Nat → Option (Int × Nat)
  | 0 => none
  | e + 1 =>
    if start < e + 1 then
      match vocab (wpKey runes start (e + 1)) with
      | some id => some (id, e + 1)
      | none => findPiece vocab runes start e
    else none

theorem findPiece_bounds (vocab : Vocab) (runes : List Char) (start : Nat) :
    ∀ e id e', findPiece vocab runes start e = some (id, e') → start < e' ∧ e' ≤ e := by
  intro e
  induction e with
  | zero => intro id e' h; simp [findPiece] at h
  | succ e ih =>
    intro id e' h
    simp only [findPiece] at h
    split at h
    · split at h
      · next heq =>
        simp only [Option.some.injEq, Prod.mk.injEq] at h
        omega
      · have := ih id e' h
        omega
    · exact absurd h (by simp)

/-- Outer loop of `wordPieceTokenize`: while `start < len(wordRunes)`, emit the
longest vocabulary match and advance past it, or emit UNK (100) and advance one
rune. -/
def wpLoop (vocab : Vocab) (runes : List Char) (start : Nat) : List Int :=
  if h : start < runes.length then
    match hf : findPiece vocab runes start runes.length with
    | some (id, e) => id :: wpLoop vocab runes e
    | none => 100 :: wpLoop vocab runes (start + 1)
  else []
termination_by runes.length - start
decreasing_by
  · have := findPiece_bounds vocab runes start runes.length id e hf
    omega
  · omega

/-- `wordPieceTokenize` (identical in internal/embedder/embedder.go and
internal/reranker/reranker.go): whole-word vocabulary hit short-circuits;
words longer than 100 bytes (Go `len(word)` is the byte length) map to UNK;
otherwise run the greedy longest-match loop. -/
def wordPieceTokenize (vocab : Vocab) (word : String) : List Int :=
  match vocab word with
  | some id => [id]
  | none =>
    if 100 < word.utf8ByteSize then [100]
    else wpLoop vocab word.toList 0

/-! ## The embedder's `tokenize` (internal/embedder/embedder.go) -/

def MaxSeqLen : Nat := 256
def clsToken : Int := 101
def sepToken : Int := 102
def padToken : Int := 0

/-- Inner placement loop of `tokenize`: place the sub-tokens of one word while
`pos < MaxSeqLen-1`; returns the tokens actually placed. -/
def fillTokens (toks : List Int) (pos : Nat) : List Int :=
  match toks with
  | [] => []
  | t :: ts => if MaxSeqLen - 1 ≤ pos then [] else t :: fillTokens ts (pos + 1)

/-- Word loop of `tokenize`: stop as soon as `pos ≥ MaxSeqLen-1`, otherwise
place each word's WordPiece tokens and advance `pos`. -/
def wordLoop (vocab : Vocab) (words : List String) (pos : Nat) : List Int :=
  match words with
  | [] => []
  | w :: ws =>
    if MaxSeqLen - 1 ≤ pos then []
    else
      let placed := fillTokens (wordPieceTokenize vocab w) pos
      placed ++ wordLoop vocab ws (pos + placed.length)

/-- Go `strings.ToLower`, modelled rune-by-rune; `Char.toLower` lowercases
exactly the ASCII uppercase letters, which matches Go on ASCII text. -/
def goToLower (s : String) : String :=
  String.mk (s.toList.map Char.toLower)

/-- `tokenize` (internal/embedder/embedder.go) restricted to one text of the
batch (each batch row is computed independently): CLS at position 0, the
lowercased text's WordPiece tokens while `pos < MaxSeqLen-1`, a SEP, then PAD
up to `MaxSeqLen`; the attention mask is 1 on every written position and 0 on
the padding. -/
def tokenize (vocab : Vocab) (text : String) : List Int × List Int :=
  let words := tokenizeText (goToLower text)
  let body := wordLoop vocab words 1
  let pos := 1 + body.length
  let withSep := if pos < MaxSeqLen then body ++ [sepToken] else body
  let used := clsToken :: withSep
  (used ++ List.replicate (MaxSeqLen - used.length) padToken,
   List.replicate used.length 1 ++ List.replicate (MaxSeqLen - used.length) 0)


/-- Test vocabulary of concrete scenario 1. -/
def demoVocab : Vocab := fun s =>
  List.lookup s [("hello", (10 : Int)), ("world", 11), ("[CLS]", 101), ("[SEP]", 102)]

/-- A 101-byte word that is present, as a whole, in the vocabulary below. -/
def longWord : String := String.mk (List.replicate 101 (Char.ofNat 97))

/-- Vocabulary containing only `longWord`. -/
def longVocab : Vocab := fun s => if s = longWord then some 7 else none

/-! ## Vector store (internal/store/store.go) -/

/-- A row of the `documents` table. -/
structure DocRow where
  id : Int
  filePath : String
  fileHash : String
  title : String
deriving DecidableEq

/-- A row of the `chunks` table; the embedding column is `NULL` or a
fixed-width array (Go float32 components modelled as ℚ). -/
structure ChunkRow where
  id : Int
  documentId : Int
  headingPath : String
  headingLevel : Int
  content : String
  startLine : Int
  embedding : Option (List ℚ)
deriving DecidableEq

/-- The durable store: the two tables. -/
structure StoreState where
  documents : List DocRow
  chunks : List ChunkRow
deriving DecidableEq

/-- `store.SearchResult`. -/
structure SearchResult where
  chunkID : Int
  filePath : String
  title : String
  headingPath : String
  content : String
  startLine : Int
  distance : ℚ
deriving DecidableEq

/-- One SELECT row of `Store.Search`: the chunk joined (on
`c.document_id = d.id`) to its document, with
`array_cosine_distance(c.embedding, query)` modelled by the `dist` oracle. -/
def Store.rowOf (dist : List ℚ → Option (List ℚ) → ℚ) (qv : List ℚ) (st : StoreState)
    (c : ChunkRow) : Option SearchResult :=
  (st.documents.find? (fun d => d.id == c.documentId)).map fun d =>
    ⟨c.id, d.filePath, d.title, c.headingPath, c.content, c.startLine, dist qv c.embedding⟩

/-- Ascending cosine distance, the ORDER BY key of `Store.Search`. -/
def distLe (a b : SearchResult) : Prop := a.distance ≤ b.distance

instance : DecidableRel distLe := fun a b => inferInstanceAs (Decidable (a.distance ≤ b.distance))

instance : IsTotal SearchResult distLe := ⟨fun a b => le_total a.distance b.distance⟩

instance : IsTrans SearchResult distLe := ⟨fun _ _ _ => le_trans⟩

/-- `Store.Search` (internal/store/store.go): rejects non-positive limits,
caps the limit at 1000, and evaluates the SQL
`SELECT ... ORDER BY distance ASC LIMIT ?` over the join of chunks and
documents. The ORDER BY is modelled declaratively by a sort on the distance
key (the engine may break ties arbitrarily; this model fixes one order). -/
def Store.Search (dist : List ℚ → Option (List ℚ) → ℚ) (st : StoreState)
    (qv : List ℚ) (limit : Int) : Except String (List SearchResult) :=
  if limit ≤ 0 then .error "limit must be positive"
  else
    let limit := if limit > 1000 then 1000 else limit
    .ok ((List.insertionSort distLe (st.chunks.filterMap (Store.rowOf dist qv st))).take limit.toNat)

/-- `Store.DeleteDocumentByPath` (internal/store/store.go): looks up the
document id; absent is a no-op, otherwise the chunks are deleted by one SQL
statement and the document by a second, separate statement — there is no
surrounding transaction. `failDeleteDoc` injects a failure of the second
statement, after the first has already committed. -/
def Store.DeleteDocumentByPath (failDeleteDoc : Bool) (st : StoreState) (filePath : String) :
    Option String × StoreState :=
  match st.documents.find? (fun d => d.filePath == filePath) with
  | none => (none, st)
  | some doc =>
    let st1 : StoreState := ⟨st.documents, st.chunks.filter (fun c => !(c.documentId == doc.id))⟩
    if failDeleteDoc then (some "delete documents failed", st1)
    else (none, ⟨st1.documents.filter (fun d => !(d.id == doc.id)), st1.chunks⟩)

/-- A Go float32 as it reaches persistence: NaN, an infinity, or a finite
value (modelled as ℚ). -/
inductive GoFloat where
  | nan : GoFloat
  | inf : Bool → GoFloat
  | finite : ℚ → GoFloat
deriving DecidableEq

/-- Per-element semantics of `floatSliceToArrayString`: NaN and ±Inf are
written as 0, finite values verbatim. -/
def sanitize : GoFloat → ℚ
  | .nan => 0
  | .inf _ => 0
  | .finite q => q

/-- `floatSliceToArrayString` (internal/store/store.go), by its denotation:
the empty slice renders "NULL", otherwise the sanitized array literal. -/
def floatSliceToArray (v : List GoFloat) : Option (List ℚ) :=
  if v = [] then none else some (v.map sanitize)

/-- `store.Chunk`. -/
structure Chunk where
  headingPath : String
  headingLevel : Int
  content : String
  startLine : Int
deriving DecidableEq

/-- `Store.InsertChunk` (internal/store/store.go): renders the embedding with
`floatSliceToArrayString` and inserts through a `::FLOAT[384]` cast. The cast
accepts NULL and length-384 arrays and fails otherwise (DuckDB fixed-width
array cast semantics, per the schema column `embedding FLOAT[384]`). `newID`
models the sequence-assigned chunk id. -/
def Store.InsertChunk (st : StoreState) (newID docID : Int) (chunk : Chunk)
    (embedding : List GoFloat) : Except String StoreState :=
  match floatSliceToArray embedding with
  | none => .ok ⟨st.documents, st.chunks ++
      [⟨newID, docID, chunk.headingPath, chunk.headingLevel, chunk.content, chunk.startLine, none⟩]⟩
  | some q =>
    if q.length = 384 then
      .ok ⟨st.documents, st.chunks ++
        [⟨newID, docID, chunk.headingPath, chunk.headingLevel, chunk.content, chunk.startLine, some q⟩]⟩
    else .error "cast to FLOAT array failed"

/-! ## Reranker (internal/reranker/reranker.go) -/

/-- `reranker.ScoredResult`. -/
structure ScoredResult where
  result : SearchResult
  score : ℚ
deriving DecidableEq

/-- Descending cross-encoder score, the order produced by `Rerank`'s
`sort.Slice(..., scored[i].Score > scored[j].Score)`. -/
def scoreGe (a b : ScoredResult) : Prop := b.score ≤ a.score

instance : DecidableRel scoreGe := fun a b => inferInstanceAs (Decidable (b.score ≤ a.score))

instance : IsTotal ScoredResult scoreGe := ⟨fun a b => le_total b.score a.score⟩

instance : IsTrans ScoredResult scoreGe := ⟨fun _ _ _ h1 h2 => le_trans h2 h1⟩

/-- `Reranker.Rerank` on its success path: empty input returns nil before any
inference; otherwise each candidate is paired in input order with the model's
scalar logit (the `scores` oracle models the network output tensor) and the
slice is sorted by descending score. Go's `sort.Slice` guarantees the
comparator order but not stability; the model fixes one comparator-respecting
order. Inference failure is a separate path, modelled at the service boundary
by the rerank oracle's error case. -/
def Reranker.Rerank (scores : Nat → ℚ) (query : String) (results : List SearchResult) :
    Except String (List ScoredResult) :=
  if results = [] then .ok []
  else .ok (List.insertionSort scoreGe (results.mapIdx fun i r => ⟨r, scores i⟩))

/-! ## Search service (internal/search/search.go) -/

def DefaultLimit : Int := 5
def MaxLimit : Int := 20
def MinLimit : Int := 1
def DefaultCandidates : Int := 50
def MaxCandidates : Int := 100
def MinCandidates : Int := 1

/-- `search.Params`; Go's zero value 0 means "unset" for the two ints, a nil
pointer means "unset" for the rerank flag. -/
structure Params where
  query : String
  limit : Int
  candidates : Int
  rerank : Option Bool
deriving DecidableEq

/-- `search.Item`. -/
structure Item where
  filePath : String
  title : String
  headingPath : String
  content : String
  startLine : Int
  score : ℚ
deriving DecidableEq

/-- `search.Result`. -/
structure Result where
  query : String
  items : List Item
  reranked : Bool
deriving DecidableEq

/-- `clamp` (internal/search/search.go). -/
def clamp (val min max defaultVal : Int) : Int :=
  if val = 0 then defaultVal
  else if val < min then min
  else if val > max then max
  else val

/-- `Service.vectorResult`: truncate to `limit`, mapping distance to
similarity `1 - distance`. -/
def Service.vectorResult (query : String) (results : List SearchResult) (limit : Int)
    (reranked : Bool) : Result :=
  let limit := if limit > (results.length : Int) then (results.length : Int) else limit
  ⟨query,
   (results.take limit.toNat).map fun r =>
     ⟨r.filePath, r.title, r.headingPath, r.content, r.startLine, 1 - r.distance⟩,
   reranked⟩

/-- `Service.rerankedResult`: truncate to `limit`, passing the cross-encoder
score through; always marked reranked. -/
def Service.rerankedResult (query : String) (results : List ScoredResult) (limit : Int) : Result :=
  let limit := if limit > (results.length : Int) then (results.length : Int) else limit
  ⟨query,
   (results.take limit.toNat).map fun r =>
     ⟨r.result.filePath, r.result.title, r.result.headingPath, r.result.content,
      r.result.startLine, r.score⟩,
   true⟩

/-- `Service.Search` (internal/search/search.go), with the collaborators as
oracles: `embed` is `Embedder.Embed` on the one-element batch, `stSearch` is
the store's vector search, `rerank` the reranker call (its `.error` case is
any network/shape failure), and `hasReranker` whether `s.reranker != nil`.
The embedder-nil guard is outside this model (the embedder is supplied). -/
def Service.Search (hasReranker : Bool)
    (embed : List String → Except String (List (List ℚ)))
    (stSearch : List ℚ → Int → Except String (List SearchResult))
    (rerank : String → List SearchResult → Except String (List ScoredResult))
    (p : Params) : Except String Result :=
  if p.query = "" then .error "query is required"
  else
    let limit := clamp p.limit MinLimit MaxLimit DefaultLimit
    let candidates := clamp p.candidates MinCandidates MaxCandidates DefaultCandidates
    let useRerank := match p.rerank with
      | none => hasReranker
      | some b => b && hasReranker
    let fetchCount := if useRerank then candidates else limit
    match embed [p.query] with
    | .error e => .error ("failed to embed query: " ++ e)
    | .ok embeddings =>
      match embeddings with
      | [] => .error "no embedding generated"
      | qv :: _ =>
        match stSearch qv fetchCount with
        | .error e => .error ("search failed: " ++ e)
        | .ok vectorResults =>
          if vectorResults = [] then .ok ⟨p.query, [], false⟩
          else if useRerank then
            match rerank p.query vectorResults with
            | .error _ => .ok (Service.vectorResult p.query vectorResults limit false)
            | .ok rk => .ok (Service.rerankedResult p.query rk limit)
          else .ok (Service.vectorResult p.query vectorResults limit false)

/-! ## Concrete fixtures used by the claim theorems -/

/-- Concrete one-document, one-chunk store for the C5 scenario. -/
def c5Doc : DocRow := ⟨1, "/doc.md", "h1", "T"⟩
def c5Chunk : ChunkRow := ⟨1, 1, "# H", 1, "text", 1, none⟩
def c5State : StoreState := ⟨[c5Doc], [c5Chunk]⟩

/-- Concrete store and oracles for the C6 witness. -/
def c6Dist : List ℚ → Option (List ℚ) → ℚ := fun _ e =>
  match e with
  | some (q :: _) => q
  | _ => 0
def c6Doc : DocRow := ⟨1, "/a.md", "h1", "A"⟩
def c6State : StoreState :=
  ⟨[c6Doc], [⟨1, 1, "# A", 1, "alpha", 1, some [3]⟩, ⟨2, 1, "# B", 1, "beta", 5, some [1]⟩]⟩
def c6RowA : SearchResult := ⟨1, "/a.md", "A", "# A", "alpha", 1, 3⟩
def c6RowB : SearchResult := ⟨2, "/a.md", "A", "# B", "beta", 5, 1⟩

/-- Concrete 384-component vector containing a NaN and an infinity. -/
def c9Vec : List GoFloat :=
  GoFloat.nan :: GoFloat.inf true :: List.replicate 382 (GoFloat.finite 1)

/-- Concrete collaborators for the C1 scenario: no reranker loaded. -/
def c1Row : SearchResult := ⟨1, "/a.md", "A", "# H", "body", 1, 1/2⟩
def c1Embed : List String → Except String (List (List ℚ)) := fun _ => .ok [[1]]
def c1Store : List ℚ → Int → Except String (List SearchResult) := fun _ _ => .ok [c1Row]
def c1Rerank : String → List SearchResult → Except String (List ScoredResult) :=
  fun _ rs => .ok (rs.map fun r => ⟨r, 9⟩)
def c1Params : Params := ⟨"q", 0, 0, some true⟩

/-- Concrete collaborators for the C2 witness: the reranker always throws. -/
def c2Row : SearchResult := ⟨1, "/b.md", "B", "# I", "text", 2, 1/4⟩
def c2Embed : List String → Except String (List (List ℚ)) := fun _ => .ok [[1]]
def c2Store : List ℚ → Int → Except String (List SearchResult) := fun _ _ => .ok [c2Row]
def c2Rerank : String → List SearchResult → Except String (List ScoredResult) :=
  fun _ _ => .error "inference failed"
def c2Params : Params := ⟨"q", 0, 0, none⟩

/-- Concrete ten-chunk store for the C8 scenario. -/
def c8Doc : DocRow := ⟨1, "/t.md", "h1", "T"⟩
def c8State : StoreState :=
  ⟨[c8Doc], (List.range 10).map fun i => ⟨(i : Int) + 1, 1, "# T", 1, "c", (i : Int), some [1]⟩⟩
def c8Dist : List ℚ → Option (List ℚ) → ℚ := fun _ _ => 0
def c8Embed : List String → Except String (List (List ℚ)) := fun _ => .ok [[1]]
def c8Rerank : String → List SearchResult → Except String (List ScoredResult) := fun _ _ => .ok []


/-! ## Supporting lemmas -/

theorem swLoop_mem (cs : List Char) (cur : List Char)
    (hcur : ∀ c ∈ cur, swWordish c = true) :
    ∀ w ∈ swLoop cs cur, w ≠ "" ∧
      ((∃ c, w = String.mk [c] ∧ (goIsPunct c || goIsSymbol c) = true) ∨
        ∀ c ∈ w.toList, swWordish c = true) := by
  induction cs generalizing cur with
  | nil =>
    intro w hw
    simp only [swLoop] at hw
    split at hw
    · simp at hw
    · next hne =>
      simp only [List.mem_singleton] at hw
      subst hw
      refine ⟨by simpa [String.ext_iff] using hne, Or.inr ?_⟩
      simpa using hcur
  | cons c rest ih =>
    intro w hw
    simp only [swLoop] at hw
    split at hw
    · exact ih cur hcur w hw
    · split at hw
      · rcases List.mem_append.mp hw with h | h
        · split at h
          · simp at h
          · next hne =>
            simp only [List.mem_singleton] at h
            subst h
            refine ⟨by simpa [String.ext_iff] using hne, Or.inr ?_⟩
            simpa using hcur
        · exact ih [] (by simp) w h
      · split at hw
        · rcases List.mem_append.mp hw with h | h
          · split at h
            · simp at h
            · next hne =>
              simp only [List.mem_singleton] at h
              subst h
              refine ⟨by simpa [String.ext_iff] using hne, Or.inr ?_⟩
              simpa using hcur
          · rcases List.mem_cons.mp h with h | h
            · subst h
              exact ⟨by simp [String.ext_iff], Or.inl ⟨c, rfl, by assumption⟩⟩
            · exact ih [] (by simp) w h
        · next h1 h2 h3 =>
          refine ih (cur ++ [c]) ?_ w hw
          intro d hd
          rcases List.mem_append.mp hd with h | h
          · exact hcur d h
          · simp only [List.mem_singleton] at h
            subst h
            have hp : goIsPunct d = false := by
              cases hx : goIsPunct d
              · rfl
              · exact absurd (by simp [hx]) h3
            have hs : goIsSymbol d = false := by
              cases hx : goIsSymbol d
              · rfl
              · exact absurd (by simp [hx]) h3
            simp only [swWordish, hp, hs]
            simp_all

theorem flush_flatten (cur : List Char) :
    (((if cur = ([] : List Char) then ([] : List String) else [String.mk cur]).map
      String.toList)).flatten = cur := by
  split <;> simp_all

theorem swLoop_join (cs : List Char) (cur : List Char) :
    ((swLoop cs cur).map String.toList).flatten
      = cur ++ cs.filter (fun c => !goIsSpace c && !goIsControl c) := by
  induction cs generalizing cur with
  | nil =>
    simp only [swLoop]
    rw [flush_flatten]
    simp
  | cons c rest ih =>
    simp only [swLoop]
    split
    · next hctl =>
      have hc : (!goIsSpace c && !goIsControl c) = false := by simp_all
      rw [ih cur]
      simp [List.filter_cons, hc]
    · next hctl =>
      split
      · next hsp =>
        have hc : (!goIsSpace c && !goIsControl c) = false := by simp_all
        rw [List.map_append, List.flatten_append, flush_flatten, ih []]
        simp [List.filter_cons, hc]
      · next hsp =>
        split
        · next hps =>
          have hc : (!goIsSpace c && !goIsControl c) = true := by simp_all
          rw [List.map_append, List.flatten_append, flush_flatten, List.map_cons,
            List.flatten_cons, ih []]
          simp [List.filter_cons, hc]
        · next hps =>
          have hc : (!goIsSpace c && !goIsControl c) = true := by simp_all
          rw [ih (cur ++ [c])]
          simp [List.filter_cons, hc]

theorem ttLoop_mem (cs : List Char) (cur : List Char)
    (hcur : ∀ c ∈ cur, ttWordish c = true) :
    ∀ w ∈ ttLoop cs cur, w ≠ "" ∧
      ((∃ c, w = String.mk [c] ∧ goIsPunct c = true) ∨
        ∀ c ∈ w.toList, ttWordish c = true) := by
  induction cs generalizing cur with
  | nil =>
    intro w hw
    simp only [ttLoop] at hw
    split at hw
    · simp at hw
    · next hne =>
      simp only [List.mem_singleton] at hw
      subst hw
      refine ⟨by simpa [String.ext_iff] using hne, Or.inr ?_⟩
      simpa using hcur
  | cons c rest ih =>
    intro w hw
    simp only [ttLoop] at hw
    split at hw
    · rcases List.mem_append.mp hw with h | h
      · split at h
        · simp at h
        · next hne =>
          simp only [List.mem_singleton] at h
          subst h
          refine ⟨by simpa [String.ext_iff] using hne, Or.inr ?_⟩
          simpa using hcur
      · exact ih [] (by simp) w h
    · split at hw
      · rcases List.mem_append.mp hw with h | h
        · split at h
          · simp at h
          · next hne =>
            simp only [List.mem_singleton] at h
            subst h
            refine ⟨by simpa [String.ext_iff] using hne, Or.inr ?_⟩
            simpa using hcur
        · rcases List.mem_cons.mp h with h | h
          · subst h
            exact ⟨by simp [String.ext_iff], Or.inl ⟨c, rfl, by assumption⟩⟩
          · exact ih [] (by simp) w h
      · next h1 h2 =>
        refine ih (cur ++ [c]) ?_ w hw
        intro d hd
        rcases List.mem_append.mp hd with h | h
        · exact hcur d h
        · simp only [List.mem_singleton] at h
          subst h
          simp only [ttWordish]
          simp_all

theorem ttLoop_join (cs : List Char) (cur : List Char) :
    ((ttLoop cs cur).map String.toList).flatten
      = cur ++ cs.filter (fun c => !goIsSpace c) := by
  induction cs generalizing cur with
  | nil =>
    simp only [ttLoop]
    rw [flush_flatten]
    simp
  | cons c rest ih =>
    simp only [ttLoop]
    split
    · next hsp =>
      have hc : (!goIsSpace c) = false := by simp_all
      rw [List.map_append, List.flatten_append, flush_flatten, ih []]
      simp [List.filter_cons, hc]
    · next hsp =>
      split
      · next hps =>
        have hc : (!goIsSpace c) = true := by simp_all
        rw [List.map_append, List.flatten_append, flush_flatten, List.map_cons,
          List.flatten_cons, ih []]
        simp [List.filter_cons, hc]
      · next hps =>
        have hc : (!goIsSpace c) = true := by simp_all
        rw [ih (cur ++ [c])]
        simp [List.filter_cons, hc]

theorem wpLoop_ne_nil (vocab : Vocab) (runes : List Char) (start : Nat)
    (h : start < runes.length) : wpLoop vocab runes start ≠ [] := by
  rw [wpLoop]
  rw [dif_pos h]
  split <;> simp

theorem fillTokens_le (toks : List Int) (pos : Nat) :
    pos + (fillTokens toks pos).length ≤ max pos (MaxSeqLen - 1) := by
  induction toks generalizing pos with
  | nil => simp [fillTokens]
  | cons t ts ih =>
    simp only [fillTokens]
    split
    · simp
    · have := ih (pos + 1)
      simp only [List.length_cons]
      omega

theorem wordLoop_le (vocab : Vocab) (words : List String) (pos : Nat) :
    pos + (wordLoop vocab words pos).length ≤ max pos (MaxSeqLen - 1) := by
  induction words generalizing pos with
  | nil => simp [wordLoop]
  | cons w ws ih =>
    simp only [wordLoop]
    split
    · simp
    · have h1 := fillTokens_le (wordPieceTokenize vocab w) pos
      have h2 := ih (pos + (fillTokens (wordPieceTokenize vocab w) pos).length)
      simp only [List.length_append]
      omega


theorem ids_frame_eq (body : List Int) (A B : Nat) (h : A = B) :
    clsToken :: (body ++ [sepToken]) ++ List.replicate A padToken
      = clsToken :: body ++ sepToken :: List.replicate B padToken := by
  subst h
  simp

theorem mask_frame_eq (A1 A2 B1 B2 : Nat) (h1 : A1 = B1) (h2 : A2 = B2) :
    List.replicate A1 (1 : Int) ++ List.replicate A2 (0 : Int)
      = List.replicate B1 1 ++ List.replicate B2 0 := by
  subst h1
  subst h2
  rfl

theorem tokenize_frame (vocab : Vocab) (t : String) :
    ∃ body : List Int, body.length ≤ MaxSeqLen - 2 ∧
      (tokenize vocab t).1
        = clsToken :: body ++ sepToken :: List.replicate (MaxSeqLen - 2 - body.length) padToken ∧
      (tokenize vocab t).2
        = List.replicate (body.length + 2) 1 ++ List.replicate (MaxSeqLen - 2 - body.length) 0 ∧
      (tokenize vocab t).1.length = MaxSeqLen ∧
      (tokenize vocab t).2.length = MaxSeqLen := by
  have hlen254 : (wordLoop vocab (tokenizeText (goToLower t)) 1).length ≤ 254 := by
    have := wordLoop_le vocab (tokenizeText (goToLower t)) 1
    simp only [MaxSeqLen] at this
    omega
  have hpos256 : 1 + (wordLoop vocab (tokenizeText (goToLower t)) 1).length < 256 := by
    omega
  have hpos : 1 + (wordLoop vocab (tokenizeText (goToLower t)) 1).length < MaxSeqLen := hpos256
  refine ⟨wordLoop vocab (tokenizeText (goToLower t)) 1,
    by simp only [MaxSeqLen]; omega, ?_, ?_, ?_, ?_⟩ <;>
    (simp only [tokenize]; rw [if_pos hpos])
  · exact ids_frame_eq _ _ _
      (by simp only [List.length_cons, List.length_append, List.length_singleton, List.length_nil, MaxSeqLen]; all_goals omega)
  · exact mask_frame_eq _ _ _ _
      (by simp only [List.length_cons, List.length_append, List.length_singleton, List.length_nil]; all_goals omega)
      (by simp only [List.length_cons, List.length_append, List.length_singleton, List.length_nil, MaxSeqLen]; all_goals omega)
  · simp only [List.length_append, List.length_cons, List.length_singleton, List.length_nil,
      List.length_replicate, MaxSeqLen]
    all_goals omega
  · simp only [List.length_append, List.length_cons, List.length_singleton, List.length_nil,
      List.length_replicate, MaxSeqLen]
    all_goals omega


set_option maxRecDepth 4000 in
/-- C3: for every input text the tokenizer emits CLS(101) first, the used
region ends with SEP(102) followed only by PAD(0) carrying mask 0, both the id
sequence and the attention mask have length exactly 256; and on the vocabulary
hello=10, world=11 the text "hello world" tokenizes to ids
[101,10,11,102,0,...] with mask [1,1,1,1,0,...]. -/
theorem C3_tokenizer_frame :
    (∀ (vocab : Vocab) (t : String),
      ∃ body : List Int, body.length ≤ MaxSeqLen - 2 ∧
        (tokenize vocab t).1
          = clsToken :: body ++ sepToken :: List.replicate (MaxSeqLen - 2 - body.length) padToken ∧
        (tokenize vocab t).2
          = List.replicate (body.length + 2) 1 ++ List.replicate (MaxSeqLen - 2 - body.length) 0 ∧
        (tokenize vocab t).1.length = MaxSeqLen ∧
        (tokenize vocab t).2.length = MaxSeqLen) ∧
    tokenize demoVocab "hello world"
      = (clsToken :: 10 :: 11 :: sepToken :: List.replicate 252 padToken,
         1 :: 1 :: 1 :: 1 :: List.replicate 252 0) :=
  ⟨tokenize_frame, by decide⟩

/-- C4 counterexample: the claim says every CJK code point becomes its own
one-character token and control characters are dropped. Both splitters keep
the two CJK ideographs U+4E2D U+6587 as one two-character token, and the
embedder splitter keeps the control character U+0001 as a token and keeps the
symbol + inside a run. -/
theorem C4_coarse_split_counterexample :
    (isCJK (Char.ofNat 0x4e2d) = true ∧ isCJK (Char.ofNat 0x6587) = true) ∧
    splitWords (String.mk [Char.ofNat 0x4e2d, Char.ofNat 0x6587])
      = [String.mk [Char.ofNat 0x4e2d, Char.ofNat 0x6587]] ∧
    splitWords (String.mk [Char.ofNat 0x4e2d, Char.ofNat 0x6587])
      ≠ [String.mk [Char.ofNat 0x4e2d], String.mk [Char.ofNat 0x6587]] ∧
    (goIsControl (Char.ofNat 0x01) = true ∧
      tokenizeText (String.mk [Char.ofNat 0x01]) = [String.mk [Char.ofNat 0x01]]) ∧
    (goIsSymbol (Char.ofNat 0x2b) = true ∧ tokenizeText "a+b" = ["a+b"]) := by
  decide

/-- C4 as amended: the reranker splitter drops control runes, treats white
space as a separator only, splits each punctuation or symbol rune into its own
one-character token and keeps every other rune (CJK included) inside word
runs; the embedder splitter drops nothing and splits only at white space and
punctuation. Concatenating the tokens recovers exactly the non-separator,
non-dropped runes in order. -/
theorem C4_coarse_split_amended :
    (∀ text : String, ∀ w ∈ splitWords text, w ≠ "" ∧
       ((∃ c, w = String.mk [c] ∧ (goIsPunct c || goIsSymbol c) = true) ∨
         ∀ c ∈ w.toList, swWordish c = true)) ∧
    (∀ text : String, ((splitWords text).map String.toList).flatten
        = text.toList.filter (fun c => !goIsSpace c && !goIsControl c)) ∧
    (∀ text : String, ∀ w ∈ tokenizeText text, w ≠ "" ∧
       ((∃ c, w = String.mk [c] ∧ goIsPunct c = true) ∨
         ∀ c ∈ w.toList, ttWordish c = true)) ∧
    (∀ text : String, ((tokenizeText text).map String.toList).flatten
        = text.toList.filter (fun c => !goIsSpace c)) ∧
    splitWords "hello, world!" = ["hello", ",", "world", "!"] ∧
    splitWords "cross-encoder" = ["cross", "-", "encoder"] :=
  ⟨fun text w hw => swLoop_mem text.toList [] (by simp) w hw,
   fun text => by simpa using swLoop_join text.toList [],
   fun text w hw => ttLoop_mem text.toList [] (by simp) w hw,
   fun text => by simpa using ttLoop_join text.toList [],
   by decide, by decide⟩

/-- Witness for the amended C4 at a concrete input. -/
theorem C4_coarse_split_witness :
    "," ∈ splitWords "hello, world!" ∧
    ("," ≠ "" ∧ ((∃ c, "," = String.mk [c] ∧ (goIsPunct c || goIsSymbol c) = true) ∨
      ∀ c ∈ (",").toList, swWordish c = true)) :=
  ⟨by decide, C4_coarse_split_amended.1 "hello, world!" "," (by decide)⟩

/-- C10: for every vocabulary and non-empty word, `wordPieceTokenize`
terminates (it is a total function here; each loop step advances `start`) with
a non-empty token list, and a word whose whole surface form is in the
vocabulary maps to exactly that id, bypassing the 100-byte ceiling. -/
theorem C10_wordpiece_progress (vocab : Vocab) (word : String) (h : word ≠ "") :
    wordPieceTokenize vocab word ≠ [] ∧
    ∀ id, vocab word = some id → wordPieceTokenize vocab word = [id] := by
  constructor
  · unfold wordPieceTokenize
    split
    · simp
    · split
      · simp
      · apply wpLoop_ne_nil
        have hne : word.toList ≠ [] := by
          intro hnil
          apply h
          cases word
          simp only [String.toList] at hnil
          simp [hnil]
        have := List.length_pos.mpr hne
        omega
  · intro id hid
    simp [wordPieceTokenize, hid]

/-- Witness for C10: a 101-byte word present in the vocabulary tokenizes to
its single id even though it is longer than the 100-byte ceiling. -/
theorem C10_wordpiece_progress_witness :
    (longWord ≠ "" ∧ wordPieceTokenize longVocab longWord = [7]) ∧
    100 < longWord.utf8ByteSize :=
  ⟨⟨by decide, (C10_wordpiece_progress longVocab longWord (by decide)).2 7 (by decide)⟩,
   by decide⟩

theorem StoreSearch_mem (dist : List ℚ → Option (List ℚ) → ℚ) (st : StoreState)
    (qv : List ℚ) (lim : Int) (rows : List SearchResult)
    (h : Store.Search dist st qv lim = .ok rows) :
    ∀ r ∈ rows, ∃ c ∈ st.chunks, r.chunkID = c.id := by
  unfold Store.Search at h
  split at h
  · exact absurd h (by simp)
  · simp only [Except.ok.injEq] at h
    subst h
    intro r hr
    have hr2 : r ∈ List.insertionSort distLe (st.chunks.filterMap (Store.rowOf dist qv st)) :=
      List.mem_of_mem_take hr
    have hr3 : r ∈ st.chunks.filterMap (Store.rowOf dist qv st) :=
      (List.Perm.mem_iff (List.perm_insertionSort distLe _)).mp hr2
    obtain ⟨c, hc, hco⟩ := List.mem_filterMap.mp hr3
    refine ⟨c, hc, ?_⟩
    unfold Store.rowOf at hco
    obtain ⟨d, _, hd2⟩ := Option.map_eq_some'.mp hco
    rw [← hd2]

theorem vectorResult_items (query : String) (results : List SearchResult) (lim : Int)
    (rr : Bool) (h : 0 ≤ lim) :
    (Service.vectorResult query results lim rr).items
      = (results.take lim.toNat).map fun r =>
          ⟨r.filePath, r.title, r.headingPath, r.content, r.startLine, 1 - r.distance⟩ := by
  unfold Service.vectorResult
  split
  · next hgt =>
    have hlen : results.length ≤ lim.toNat := by omega
    simp only [Int.toNat_natCast]
    rw [List.take_length, List.take_of_length_le hlen]
  · rfl

/-- C1 counterexample: `rerank=true` with no reranker loaded does not return
an error; the call succeeds with plain vector order and `Reranked = false`
(matching the repository's own test `TestSearch_RerankFlag`). -/
theorem C1_forced_rerank_counterexample :
    Service.Search false c1Embed c1Store c1Rerank c1Params
      = .ok ⟨"q", [⟨"/a.md", "A", "# H", "body", 1, 1/2⟩], false⟩ := by
  have h1 : Service.Search false c1Embed c1Store c1Rerank c1Params
      = .ok (Service.vectorResult "q" [c1Row] 5 false) := rfl
  rw [h1]
  simp only [Service.vectorResult, c1Row]
  norm_num

/-- C1 as amended: when no reranker is loaded, an explicit `rerank=true`
behaves exactly like `rerank=false` — the search silently falls back to plain
vector order; every successful result has `Reranked = false`. -/
theorem C1_forced_rerank_amended
    (embed : List String → Except String (List (List ℚ)))
    (stSearch : List ℚ → Int → Except String (List SearchResult))
    (rerank : String → List SearchResult → Except String (List ScoredResult))
    (p : Params) (hp : p.rerank = some true) :
    Service.Search false embed stSearch rerank p
      = Service.Search false embed stSearch rerank ⟨p.query, p.limit, p.candidates, some false⟩ ∧
    ∀ r, Service.Search false embed stSearch rerank p = .ok r → r.reranked = false := by
  constructor
  · simp [Service.Search, hp]
  · intro r hr
    simp only [Service.Search, hp, Bool.and_false, Bool.and_self, if_false] at hr
    split at hr
    · exact absurd hr (by simp)
    · split at hr
      · exact absurd hr (by simp)
      · split at hr
        · exact absurd hr (by simp)
        · split at hr
          · exact absurd hr (by simp)
          · split at hr
            · simp only [Except.ok.injEq] at hr
              subst hr
              rfl
            · simp only [Bool.false_eq_true, if_false, Except.ok.injEq] at hr
              subst hr
              rfl

/-- Witness for the amended C1 on concrete collaborators. -/
theorem C1_forced_rerank_witness :
    c1Params.rerank = some true ∧
    Service.Search false c1Embed c1Store c1Rerank c1Params
      = Service.Search false c1Embed c1Store c1Rerank ⟨"q", 0, 0, some false⟩ :=
  ⟨rfl, (C1_forced_rerank_amended c1Embed c1Store c1Rerank c1Params rfl).1⟩

/-- C2: if reranking is active (reranker loaded and not disabled), the query
embeds, the candidate fetch succeeds with a non-empty list, and the reranker
invocation fails, then `Service.Search` still returns a non-error Result whose
items are the fetched candidates in their original vector order truncated to
the effective limit, with similarity `1 - distance` scores and
`Reranked = false`. -/
theorem C2_rerank_failure_fallback
    (embed : List String → Except String (List (List ℚ)))
    (stSearch : List ℚ → Int → Except String (List SearchResult))
    (rerank : String → List SearchResult → Except String (List ScoredResult))
    (p : Params) (qv : List ℚ) (rest : List (List ℚ)) (rows : List SearchResult) (msg : String)
    (hq : p.query ≠ "")
    (hpr : p.rerank ≠ some false)
    (hemb : embed [p.query] = .ok (qv :: rest))
    (hst : stSearch qv (clamp p.candidates MinCandidates MaxCandidates DefaultCandidates)
      = .ok rows)
    (hrows : rows ≠ [])
    (hrr : rerank p.query rows = .error msg) :
    Service.Search true embed stSearch rerank p
      = .ok (Service.vectorResult p.query rows (clamp p.limit MinLimit MaxLimit DefaultLimit) false) ∧
    ∀ r, Service.Search true embed stSearch rerank p = .ok r →
      r.reranked = false ∧
      r.items = (rows.take (clamp p.limit MinLimit MaxLimit DefaultLimit).toNat).map fun s =>
        ⟨s.filePath, s.title, s.headingPath, s.content, s.startLine, 1 - s.distance⟩ := by
  have huse : (match p.rerank with
      | none => true
      | some b => b && true) = true := by
    rcases hb : p.rerank with _ | b
    · rfl
    · cases b
      · exact absurd hb hpr
      · rfl
  have hmain : Service.Search true embed stSearch rerank p
      = .ok (Service.vectorResult p.query rows (clamp p.limit MinLimit MaxLimit DefaultLimit) false) := by
    simp only [Service.Search, if_neg hq, huse, if_true, hemb, hst, if_neg hrows, hrr]
  refine ⟨hmain, ?_⟩
  intro r hr
  rw [hmain] at hr
  simp only [Except.ok.injEq] at hr
  subst hr
  constructor
  · rfl
  · exact vectorResult_items p.query rows _ false (by
      simp only [clamp, MinLimit, MaxLimit, DefaultLimit]
      split <;> [omega; (split <;> [omega; (split <;> omega)])])

/-- Witness for C2 on concrete collaborators. -/
theorem C2_rerank_failure_fallback_witness :
    Service.Search true c2Embed c2Store c2Rerank c2Params
      = .ok (Service.vectorResult "q" [c2Row] (clamp 0 MinLimit MaxLimit DefaultLimit) false) :=
  (C2_rerank_failure_fallback c2Embed c2Store c2Rerank c2Params [1] [] [c2Row]
    "inference failed" (by decide) (by decide) rfl rfl (by decide) rfl).1

/-- C5 counterexample: with one document and one chunk, a failure of the
second DELETE leaves the chunks deleted but the document present — a state
that is neither the initial one nor the fully-deleted one, so the deletion is
not atomic. -/
theorem C5_delete_counterexample :
    Store.DeleteDocumentByPath true c5State "/doc.md"
      = (some "delete documents failed", ⟨[c5Doc], []⟩) ∧
    (⟨[c5Doc], []⟩ : StoreState) ≠ c5State ∧
    (⟨[c5Doc], []⟩ : StoreState) ≠ (Store.DeleteDocumentByPath false c5State "/doc.md").2 := by
  decide

/-- C5 as amended: absent path is a no-op without error; on success the
chunks of the document are deleted first and then the document, and any
subsequent whole-store search returns only rows coming from surviving chunks
of other documents; but the two deletes are separate statements, so a failure
of the second leaves the intermediate state (chunks gone, document still
present) behind. -/
theorem C5_delete_amended (st : StoreState) (path : String) :
    (st.documents.find? (fun d => d.filePath == path) = none →
      ∀ fail, Store.DeleteDocumentByPath fail st path = (none, st)) ∧
    (∀ doc, st.documents.find? (fun d => d.filePath == path) = some doc →
      (Store.DeleteDocumentByPath false st path).1 = none ∧
      (Store.DeleteDocumentByPath false st path).2.chunks
        = st.chunks.filter (fun c => !(c.documentId == doc.id)) ∧
      (Store.DeleteDocumentByPath false st path).2.documents
        = st.documents.filter (fun d => !(d.id == doc.id)) ∧
      (∀ dist qv lim rows,
        Store.Search dist (Store.DeleteDocumentByPath false st path).2 qv lim = .ok rows →
        ∀ r ∈ rows, ∃ c ∈ (Store.DeleteDocumentByPath false st path).2.chunks,
          r.chunkID = c.id ∧ c.documentId ≠ doc.id) ∧
      Store.DeleteDocumentByPath true st path
        = (some "delete documents failed",
           ⟨st.documents, st.chunks.filter (fun c => !(c.documentId == doc.id))⟩)) := by
  constructor
  · intro hnone fail
    simp [Store.DeleteDocumentByPath, hnone]
  · intro doc hdoc
    refine ⟨?_, ?_, ?_, ?_, ?_⟩
    · simp [Store.DeleteDocumentByPath, hdoc]
    · simp [Store.DeleteDocumentByPath, hdoc]
    · simp [Store.DeleteDocumentByPath, hdoc]
    · intro dist qv lim rows hs r hr
      obtain ⟨c, hc, hid⟩ :=
        StoreSearch_mem dist (Store.DeleteDocumentByPath false st path).2 qv lim rows hs r hr
      refine ⟨c, hc, hid, ?_⟩
      have hc2 : c ∈ st.chunks.filter (fun c => !(c.documentId == doc.id)) := by
        have := hc
        simp only [Store.DeleteDocumentByPath, hdoc] at this
        exact this
      have := List.of_mem_filter hc2
      simp only [Bool.not_eq_true', beq_eq_false_iff_ne, ne_eq] at this
      exact this
    · simp [Store.DeleteDocumentByPath, hdoc]

/-- Witness for the amended C5 on the concrete store. -/
theorem C5_delete_witness :
    c5State.documents.find? (fun d => d.filePath == "/doc.md") = some c5Doc ∧
    (Store.DeleteDocumentByPath false c5State "/doc.md").1 = none ∧
    (Store.DeleteDocumentByPath false c5State "/doc.md").2.chunks = [] :=
  ⟨by decide,
   ((C5_delete_amended c5State "/doc.md").2 c5Doc (by decide)).1,
   by decide⟩

/-- C6: every successful `Store.Search` result list is non-decreasing in
cosine distance, and every successful `Reranker.Rerank` result list is
non-increasing in cross-encoder score. -/
theorem C6_result_ordering :
    (∀ dist st qv lim rows, Store.Search dist st qv lim = .ok rows →
      rows.Pairwise (fun a b => a.distance ≤ b.distance)) ∧
    (∀ scores query results out, Reranker.Rerank scores query results = .ok out →
      out.Pairwise (fun a b => b.score ≤ a.score)) := by
  constructor
  · intro dist st qv lim rows h
    unfold Store.Search at h
    split at h
    · exact absurd h (by simp)
    · simp only [Except.ok.injEq] at h
      subst h
      exact ((List.sorted_insertionSort distLe _).sublist (List.take_sublist _ _))
  · intro scores query results out h
    unfold Reranker.Rerank at h
    split at h
    · simp only [Except.ok.injEq] at h
      subst h
      exact List.Pairwise.nil
    · simp only [Except.ok.injEq] at h
      subst h
      exact List.sorted_insertionSort scoreGe _

/-- Witness for C6 on concrete data. -/
theorem C6_result_ordering_witness :
    [c6RowB, c6RowA].Pairwise (fun a b => a.distance ≤ b.distance) ∧
    [⟨c6RowA, (7 : ℚ)⟩, ⟨c6RowB, 5⟩].Pairwise
      (fun a b : ScoredResult => b.score ≤ a.score) :=
  ⟨C6_result_ordering.1 c6Dist c6State [0] 5 [c6RowB, c6RowA] rfl,
   C6_result_ordering.2 (fun i => if i = 0 then 7 else 5) "q" [c6RowA, c6RowB]
     [⟨c6RowA, 7⟩, ⟨c6RowB, 5⟩] rfl⟩

set_option maxRecDepth 4000 in
/-- C8: the effective limit defaults to 5 when the parameter is unset (0) and
is always clamped into [1, 20]; and a search with `limit = 100` against a
store of exactly 10 passages succeeds with exactly 10 items. -/
theorem C8_limit_policy :
    clamp 0 MinLimit MaxLimit DefaultLimit = 5 ∧
    (∀ v : Int, MinLimit ≤ clamp v MinLimit MaxLimit DefaultLimit ∧
      clamp v MinLimit MaxLimit DefaultLimit ≤ MaxLimit) ∧
    (∃ res, Service.Search false c8Embed (Store.Search c8Dist c8State) c8Rerank
        ⟨"q", 100, 0, none⟩ = .ok res ∧ res.items.length = 10) := by
  refine ⟨by decide, ?_, ?_⟩
  · intro v
    simp only [clamp, MinLimit, MaxLimit, DefaultLimit]
    split
    · omega
    · split
      · omega
      · split <;> omega
  · have h1 : Service.Search false c8Embed (Store.Search c8Dist c8State) c8Rerank
        ⟨"q", 100, 0, none⟩
        = .ok (Service.vectorResult "q"
            ((List.insertionSort distLe
              (c8State.chunks.filterMap (Store.rowOf c8Dist [1] c8State))).take (20 : Int).toNat)
            20 false) := rfl
    have hfm : (c8State.chunks.filterMap (Store.rowOf c8Dist [1] c8State)).length = 10 := by
      decide
    have hsl : (List.insertionSort distLe
        (c8State.chunks.filterMap (Store.rowOf c8Dist [1] c8State))).length = 10 := by
      rw [(List.perm_insertionSort distLe _).length_eq, hfm]
    have hlen : ((List.insertionSort distLe
        (c8State.chunks.filterMap (Store.rowOf c8Dist [1] c8State))).take (20 : Int).toNat).length
        = 10 := by
      rw [List.length_take, hsl]
      decide
    refine ⟨_, h1, ?_⟩
    rw [vectorResult_items "q" _ 20 false (by norm_num), List.length_map, List.length_take, hlen]
    decide

/-- C9: whenever `InsertChunk` persists an embedding, the stored array has
exactly 384 components, equals the input with every NaN or infinity replaced
by 0, and a NaN/Inf at index i is stored as 0; and a 384-component vector is
always accepted (sanitized, not rejected), whatever NaN/Inf it contains. -/
theorem C9_vector_sanitization :
    (∀ (st : StoreState) (newID docID : Int) (ch : Chunk) (v : List GoFloat)
        (st' : StoreState),
      Store.InsertChunk st newID docID ch v = .ok st' →
      ∃ row, st'.chunks = st.chunks ++ [row] ∧
        ∀ emb, row.embedding = some emb →
          emb.length = 384 ∧ emb = v.map sanitize ∧
          ∀ i : Nat,
            (v.get? i = some .nan ∨ v.get? i = some (.inf true) ∨ v.get? i = some (.inf false)) →
            emb.get? i = some 0) ∧
    (∀ (st : StoreState) (newID docID : Int) (ch : Chunk) (v : List GoFloat),
      v.length = 384 → ∃ st', Store.InsertChunk st newID docID ch v = .ok st') := by
  constructor
  · intro st newID docID ch v st' h
    unfold Store.InsertChunk at h
    split at h
    · next hnone =>
      simp only [Except.ok.injEq] at h
      subst h
      exact ⟨_, rfl, by simp⟩
    · next q hsome =>
      split at h
      · next hlen =>
        simp only [Except.ok.injEq] at h
        subst h
        refine ⟨_, rfl, ?_⟩
        intro emb hemb
        simp only [Option.some.injEq] at hemb
        subst hemb
        have hq : q = v.map sanitize := by
          unfold floatSliceToArray at hsome
          split at hsome
          · exact absurd hsome (by simp)
          · simp only [Option.some.injEq] at hsome
            exact hsome.symm
        subst hq
        refine ⟨hlen, rfl, ?_⟩
        intro i hi
        rw [List.get?_map]
        rcases hi with hi | hi | hi <;> rw [hi] <;> rfl
      · exact absurd h (by simp)
  · intro st newID docID ch v hv
    have hne : v ≠ [] := by
      intro hnil
      rw [hnil] at hv
      simp at hv
    refine ⟨⟨st.documents, st.chunks ++
      [⟨newID, docID, ch.headingPath, ch.headingLevel, ch.content, ch.startLine,
        some (v.map sanitize)⟩]⟩, ?_⟩
    unfold Store.InsertChunk floatSliceToArray
    rw [if_neg hne]
    simp only
    rw [if_pos (by simp [hv])]

set_option maxRecDepth 8000 in
/-- Witness for C9: the vector with NaN/Inf components is accepted. -/
theorem C9_vector_sanitization_witness :
    c9Vec.length = 384 ∧
    ∃ st', Store.InsertChunk ⟨[], []⟩ 1 1 ⟨"# H", 1, "x", 1⟩ c9Vec = .ok st' :=
  ⟨by decide,
   C9_vector_sanitization.2 ⟨[], []⟩ 1 1 ⟨"# H", 1, "x", 1⟩ c9Vec (by decide)⟩


end McpMyDocs
